import Mathlib

/-!
Verification of the site-asset-downloader core against its specification.

This file gives a shallow embedding, in Lean 4, of the parts of the
repository that the checked claims are about:

* the URL/extension classifiers and filter validation of `src/utils.js`,
* the media-selection pipeline of `src/extractor.js`,
* the retry wrapper `retryAsync` of `src/utils.js`,
* the download manager of `src/downloader.js` (`downloadFile`,
  `downloadBulk`, `createZipArchive`),
* the job-creation route `router.post('/extract')` of `src/routes/api.js`,
* the browser pool of `src/browser-pool.js`.

External collaborators (the WHATWG URL parser, axios, the filesystem,
puppeteer) are modelled as explicit inputs: a parse function written out
for the well-formed absolute http(s) URLs the repository handles, outcome
functions for network requests, and boolean oracles for filesystem state.
JavaScript-specific semantics that a claim depends on (truthiness, the
behaviour of a `throw` inside a stream event handler, `Set` insertion) are
modelled explicitly and documented at the definition concerned.
-/

namespace SiteAssetDL

/-! ## String helpers (substring search, models the regex tests of utils.js) -/

/-- Does the character list start with the given segment? -/
def segStarts : List Char → List Char → Bool
  | [], _ => true
  | _ :: _, [] => false
  | p :: ps, c :: cs => p == c && segStarts ps cs

/-- Does the segment occur anywhere inside the character list?  This models a
regex alternation member being found somewhere in the subject string. -/
def segIn (pat : List Char) : List Char → Bool
  | [] => pat.isEmpty
  | c :: cs => segStarts pat (c :: cs) || segIn pat cs

/-- Lower-cased character list of a string; models the case-insensitive `/i`
regex flags and `toLowerCase()` for the ASCII URLs the repository handles. -/
def lowerStr (s : String) : List Char := s.toList.map Char.toLower

/-! ## URL pathname and extension (models `new URL(...).pathname` and
`path.extname` as used by `getFileExtension` in src/utils.js) -/

/-- Characters after the first `://` separator, or `none` when the string has
no scheme separator (where the platform `new URL` constructor would throw and
`getFileExtension` would return `null`). -/
def afterSchemeSep : List Char → Option (List Char)
  | ':' :: '/' :: '/' :: rest => some rest
  | _ :: rest => afterSchemeSep rest
  | [] => none

/-- Pathname of an absolute http(s) URL string: the text from the first `/`
after the host up to a query or fragment, `/` when the path is empty.  Models
the WHATWG URL parser for the well-formed absolute URLs the repository
handles. -/
def urlPathname (s : String) : Option (List Char) :=
  match afterSchemeSep s.toList with
  | none => none
  | some rest =>
    let tail := rest.dropWhile (fun c => c != '/')
    if tail.isEmpty then some ['/']
    else some (tail.takeWhile (fun c => c != '?' && c != '#'))

/-- Basename of a pathname: the characters after the last `/`. -/
def baseNameOf (p : List Char) : List Char :=
  ((p.reverse).takeWhile (fun c => c != '/')).reverse

/-- Node's `path.extname` on a pathname: the suffix from the last `.` of the
basename, empty when there is no dot or the dot is the basename's first
character. -/
def extnameOf (p : List Char) : List Char :=
  let b := baseNameOf p
  let r := b.reverse
  let pre := r.takeWhile (fun c => c != '.')
  if pre.length == r.length then []
  else if pre.length + 1 == r.length then []
  else '.' :: pre.reverse

/-- `getFileExtension` from src/utils.js: lower-cased extension of the URL's
pathname, `none` for an unparsable URL or an empty extension (the JS function
returns `ext || null`). -/
def getFileExtension (s : String) : Option (List Char) :=
  match urlPathname s with
  | none => none
  | some p =>
    let e := (extnameOf p).map Char.toLower
    if e.isEmpty then none else some e

/-- `SUPPORTED_IMAGE_EXTENSIONS` from src/utils.js. -/
def SUPPORTED_IMAGE_EXTENSIONS : List (List Char) :=
  [".jpg", ".jpeg", ".png", ".gif", ".webp", ".svg", ".bmp", ".ico",
   ".tiff"].map String.toList

/-- `SUPPORTED_VIDEO_EXTENSIONS` from src/utils.js. -/
def SUPPORTED_VIDEO_EXTENSIONS : List (List Char) :=
  [".mp4", ".webm", ".avi", ".mov", ".mkv", ".wmv", ".flv", ".m4v",
   ".3gp"].map String.toList

/-- `SUPPORTED_EXTENSIONS` from src/utils.js. -/
def SUPPORTED_EXTENSIONS : List (List Char) :=
  SUPPORTED_IMAGE_EXTENSIONS ++ SUPPORTED_VIDEO_EXTENSIONS

/-- `isImageType` from src/utils.js: the URL's pathname extension is a
supported image extension. -/
def isImageType (s : String) : Bool :=
  match getFileExtension s with
  | some e => SUPPORTED_IMAGE_EXTENSIONS.contains e
  | none => false

/-- `isVideoType` from src/utils.js. -/
def isVideoType (s : String) : Bool :=
  match getFileExtension s with
  | some e => SUPPORTED_VIDEO_EXTENSIONS.contains e
  | none => false

/-- Keyword alternatives of the second `mediaPatterns` regex of
`isSupportedMediaType` in src/utils.js. -/
def mediaKeywords : List (List Char) :=
  ["image", "img", "photo", "picture", "video", "media", "thumb",
   "thumbnail", "gallery"].map String.toList

/-- `isSupportedMediaType` from src/utils.js: a supported pathname extension,
or one of the regex patterns matches the raw URL string.  The first pattern is
a dotted extension occurring anywhere in the string; the second is a media
keyword occurring anywhere; the third (`/storage` followed by a dotted
extension) is subsumed by the first, since any of its matches contains a
dotted-extension substring, so it does not change the function's value. -/
def isSupportedMediaType (s : String) : Bool :=
  (match getFileExtension s with
   | some e => SUPPORTED_EXTENSIONS.contains e
   | none => false)
  || SUPPORTED_EXTENSIONS.any (fun w => segIn w (lowerStr s))
  || mediaKeywords.any (fun w => segIn w (lowerStr s))

/-- Split an absolute URL into the scheme before `://` and the remainder;
`none` when the separator is absent (where the platform URL constructor
throws). -/
def splitSchemeSep : List Char → Option (List Char × List Char)
  | [] => none
  | ':' :: '/' :: '/' :: rest => some ([], rest)
  | c :: cs =>
    match splitSchemeSep cs with
    | some (pre, rest) => some (c :: pre, rest)
    | none => none

/-- The directory part of a pathname: everything up to and including the last
slash, `/` for a path with none. -/
def dirOf (p : List Char) : List Char :=
  let d := (p.reverse.dropWhile (fun c => c != '/')).reverse
  if d.isEmpty then ['/'] else d

/-- `normalizeUrl` from src/utils.js: a protocol-relative URL gets `https:`
prefixed; a root-relative URL is joined to the base URL's origin; a string
starting with `http` is taken as already absolute; anything else is resolved
against the base URL's directory.  `new URL(...).href` is modelled as the
identity on the resulting absolute URL (no percent-encoding or dot-segment
handling, which the checked claims do not exercise), and `none` models the
constructor throwing on an unusable base. -/
def normalizeUrl (u baseUrl : String) : Option String :=
  let cs := u.toList
  if segStarts ['/', '/'] cs then some ("https:" ++ u)
  else if segStarts ['/'] cs then
    match splitSchemeSep baseUrl.toList with
    | none => none
    | some (scheme, rest) =>
      let host := rest.takeWhile (fun c => c != '/' && c != '?' && c != '#')
      some (String.mk (scheme ++ ':' :: '/' :: '/' :: (host ++ cs)))
  else if segStarts "http".toList cs then some u
  else
    match splitSchemeSep baseUrl.toList with
    | none => none
    | some (scheme, rest) =>
      let host := rest.takeWhile (fun c => c != '/' && c != '?' && c != '#')
      let path := (rest.drop host.length).takeWhile (fun c => c != '?' && c != '#')
      some (String.mk (scheme ++ ':' :: '/' :: '/' :: (host ++ dirOf path ++ cs)))

/-! ## Filter validation (src/utils.js `validateMediaFilters`) -/

/-- Raw filter input as received by `validateMediaFilters`.  A boolean field
is `none` when absent (or any non-`false` JS value, which the check
`!== false` treats the same as `true`); a size field holds the `parseInt`
result, `none` for an absent field or `NaN`. -/
structure RawFilters where
  includeImages : Option Bool := none
  includeVideos : Option Bool := none
  minSizeBytes : Option Int := none
  maxSizeBytes : Option Int := none
deriving Repr, DecidableEq

/-- Validated filter configuration.  `maxSizeBytes = none` models
`Infinity`. -/
structure MediaFilters where
  includeImages : Bool
  includeVideos : Bool
  minSizeBytes : Int
  maxSizeBytes : Option Int
deriving Repr, DecidableEq

/-- JS `parseInt(x) || 0`: an absent or unparsable value falls back to 0 (a
parsed 0 also stays 0). -/
def jsOrZero : Option Int → Int
  | none => 0
  | some v => v

/-- JS `parseInt(x) || Infinity`: an absent, unparsable, or zero value falls
back to `Infinity` (modelled as `none`). -/
def jsOrInfinity : Option Int → Option Int
  | none => none
  | some v => if v == 0 then none else some v

/-- `validateMediaFilters` from src/utils.js: defaults, the `Math.max(0, ...)`
clamp on the minimum size, and the reset of both type switches to `true` when
both came out `false`. -/
def validateMediaFilters (f : RawFilters) : MediaFilters :=
  let v : MediaFilters :=
    { includeImages := !(f.includeImages == some false)
      includeVideos := !(f.includeVideos == some false)
      minSizeBytes := max 0 (jsOrZero f.minSizeBytes)
      maxSizeBytes := jsOrInfinity f.maxSizeBytes }
  if !v.includeImages && !v.includeVideos then
    { v with includeImages := true, includeVideos := true }
  else v

/-! ## Media-selection pipeline (src/extractor.js) -/

/-- The `type` string assigned by `validateAndGetMediaInfo`. -/
inductive MediaType
  | image
  | video
deriving Repr, DecidableEq

/-- `MediaExtractor.shouldIncludeByType` (src/extractor.js lines 334-342). -/
def shouldIncludeByType (u : String) (f : MediaFilters) : Bool :=
  if isImageType u && !f.includeImages then false
  else if isVideoType u && !f.includeVideos then false
  else true

/-- `MediaExtractor.shouldIncludeMedia` (src/extractor.js lines 387-394): the
size bounds are checked only when `mediaInfo.size` is truthy, so a `null` or
zero size is always included. -/
def shouldIncludeMedia (size : Option Int) (f : MediaFilters) : Bool :=
  match size with
  | some s =>
    if s == 0 then true
    else if s < f.minSizeBytes
            || (match f.maxSizeBytes with
                | some m => m < s
                | none => false) then false
    else true
  | none => true

/-- The type assignment of `validateAndGetMediaInfo` (src/extractor.js lines
344-385): `isImageType(url) ? 'image' : 'video'` — any URL that is not
image-typed by extension, including one with no recognised extension at all,
is typed `video`. -/
def assignMediaType (u : String) : MediaType :=
  if isImageType u then .image else .video

/-- `MediaExtractor.addMediaUrl` (src/extractor.js lines 327-332), the gate of
the element, srcset, and style collection paths: normalize, then require
`isSupportedMediaType` and `shouldIncludeByType` of the NORMALIZED URL, which
is what gets added.  The CSS paths (`extractFromCssStyles`,
`extractFromInlineStyles`, `fetchAndParseCss`) apply the same two checks to
the same normalized URL, only in the other order, so they are covered by this
gate too. -/
def addMediaUrl (u baseUrl : String) (f : MediaFilters) : Option String :=
  match normalizeUrl u baseUrl with
  | none => none
  | some n =>
    if isSupportedMediaType n && shouldIncludeByType n f then some n else none

/-- One raw regex match of `MediaExtractor.extractFromHtmlContent`
(src/extractor.js lines 431-441): `shouldIncludeByType` is applied to the RAW
pre-normalization match, the match is then normalized and checked with
`isSupportedMediaType`, and the NORMALIZED URL is added — the type filter is
never re-applied after normalization, so a relative video URL whose extension
is only recognisable once absolute slips through. -/
def htmlContentAdd (u baseUrl : String) (f : MediaFilters) : Option String :=
  if shouldIncludeByType u f then
    match normalizeUrl u baseUrl with
    | none => none
    | some n => if isSupportedMediaType n then some n else none
  else none

/-- The media-selection pipeline of `MediaExtractor.extractMedia`: candidates
discovered by the element/srcset/style paths (`domCandidates`, raw attribute
values) enter `mediaUrls` through the `addMediaUrl` gate; candidates matched
by the raw-HTML regex scan (`htmlCandidates`) enter through the
`extractFromHtmlContent` gate, which filters by type before normalization.
Each collected URL is then given its HEAD-request size (`sizes`, an
environment input, `none` when unavailable), filtered by
`shouldIncludeMedia`, and typed by `validateAndGetMediaInfo`.  Deduplication,
sorting and the stats counters of the source are omitted: the checked claims
are insensitive to order and multiplicity. -/
def extractPipeline (domCandidates htmlCandidates : List String)
    (baseUrl : String) (raw : RawFilters)
    (sizes : String → Option Int) : List (String × MediaType) :=
  (((domCandidates.filterMap
        (fun u => addMediaUrl u baseUrl (validateMediaFilters raw))) ++
      (htmlCandidates.filterMap
        (fun u => htmlContentAdd u baseUrl (validateMediaFilters raw)))).filter
    (fun u => shouldIncludeMedia (sizes u) (validateMediaFilters raw))).map
    (fun u => (u, assignMediaType u))

/-! ## Retry wrapper (src/utils.js `retryAsync`) -/

/-- An error thrown by an attempted operation; `responseStatus` is the HTTP
status of `error.response` when present. -/
structure JsError where
  responseStatus : Option Nat
deriving Repr, DecidableEq

/-- The non-retry classification of `retryAsync`: an HTTP status in the 4xx
range other than 429 and 408 propagates immediately. -/
def isNonRetryableStatus (e : JsError) : Bool :=
  match e.responseStatus with
  | some s => decide (400 ≤ s) && decide (s < 500) && !(s == 429) && !(s == 408)
  | none => false

/-- Trace of one `retryAsync` call: the final settled result, the number of
times the operation was attempted, and the wait durations slept between
attempts, in order. -/
structure RetryTrace (α : Type) where
  result : Except JsError α
  attempts : Nat
  waits : List Nat
deriving Repr

/-- The attempt loop of `retryAsync`.  `fn k` is the outcome of the operation
on its k-th invocation (an environment input); `remaining` counts the retries
still allowed (`maxRetries - attempt`).  On a retryable failure with retries
remaining, the loop waits `retryDelay * backoffMultiplier ^ attempt` and
recurses; a non-retryable failure, or exhaustion, propagates the error. -/
def retryRun {α : Type} (fn : Nat → Except JsError α)
    (retryDelay backoffMultiplier : Nat) : Nat → Nat → RetryTrace α
  | attempt, 0 =>
    match fn attempt with
    | .ok v => ⟨.ok v, 1, []⟩
    | .error e => ⟨.error e, 1, []⟩
  | attempt, r + 1 =>
    match fn attempt with
    | .ok v => ⟨.ok v, 1, []⟩
    | .error e =>
      if isNonRetryableStatus e then ⟨.error e, 1, []⟩
      else
        let w := retryDelay * backoffMultiplier ^ attempt
        let t := retryRun fn retryDelay backoffMultiplier (attempt + 1) r
        ⟨t.result, t.attempts + 1, w :: t.waits⟩

/-- `retryAsync` from src/utils.js, starting at attempt 0 with the full retry
budget. -/
def retryAsync {α : Type} (fn : Nat → Except JsError α)
    (maxRetries retryDelay backoffMultiplier : Nat) : RetryTrace α :=
  retryRun fn retryDelay backoffMultiplier 0 maxRetries

/-! ## Download manager, single file stream (src/downloader.js `downloadFile`) -/

/-- The size-limit error thrown by `downloadFile` (message `File too
large`). -/
inductive DlError
  | sizeExceeded
deriving Repr, DecidableEq, Fintype

/-- How one `downloadFile` call ends.  `resolved` and `rejected` are the
promise settling; `uncaught` records an error thrown inside a stream event
handler: such a throw escapes the event emitter's dispatch instead of
rejecting the promise awaited at lines 102-106 of src/downloader.js, so the
surrounding `try/catch` never observes it and it surfaces as a process-level
uncaught exception. -/
inductive DlOutcome
  | resolved (size : Nat)
  | rejected (e : DlError)
  | uncaught (e : DlError)
deriving Repr, DecidableEq

/-- Outcome of a `downloadFile` call plus whether the destination file is on
disk afterwards. -/
structure DlRun where
  outcome : DlOutcome
  fileOnDisk : Bool
deriving Repr, DecidableEq

/-- The streaming loop of `downloadFile`: the `data` handler adds each chunk
to `downloadedBytes` and, when the running count exceeds `maxFileSize`,
destroys the write stream, unlinks the partial file, and throws — a throw
inside the `'data'` event handler, modelled as `uncaught` (see `DlOutcome`).
When all chunks fit, the write stream finishes and the promise resolves. -/
def streamChunks (maxFileSize : Nat) : Nat → List Nat → DlRun
  | written, [] => ⟨.resolved written, true⟩
  | written, c :: rest =>
    let d := written + c
    if maxFileSize < d then ⟨.uncaught .sizeExceeded, false⟩
    else streamChunks maxFileSize d rest

/-- `downloadFile` from src/downloader.js, restricted to the size-limit
behaviour the claims are about, for a response that begins streaming:
`contentLength` is `parseInt(response.headers['content-length']) || 0` and
`chunks` are the streamed chunk lengths.  A declared length over the limit is
thrown before any byte is written and lands in the `catch` block, rejecting
the promise; the mid-stream limit check happens inside the `'data'` handler
(see `streamChunks`).  The concurrency gate, progress callback and speed
sampling are omitted — they do not affect the outcome or the file state. -/
def downloadFile (maxFileSize contentLength : Nat) (chunks : List Nat) : DlRun :=
  if maxFileSize < contentLength then ⟨.rejected .sizeExceeded, false⟩
  else streamChunks maxFileSize 0 chunks

/-! ## Download manager, bulk download (src/downloader.js `downloadBulk`) -/

/-- A completed download as recorded in `completedDownloads`: the source sets
`url` to the requested URL and `type` (here `mtype`) to
`isImage ? 'image' : 'video'` with `isImage = isImageType(url)`. -/
structure DownloadInfo where
  url : String
  filename : String
  filePath : String
  size : Nat
  contentType : String
  mtype : MediaType
deriving Repr, DecidableEq

/-- The filename, destination path and content type `downloadFile` records
for a response that begins streaming (filesystem and header environment). -/
structure FetchMeta where
  filename : String
  filePath : String
  contentType : String
deriving Repr, DecidableEq

/-- The behaviour of one HTTP GET attempt for a URL: either axios settles the
request promise with an error (non-2xx/3xx status, network failure), or a
response starts streaming with the given declared content length and chunk
sizes, which `downloadFile` then processes under its size limit. -/
inductive FetchBehavior
  | httpError (e : JsError)
  | stream (meta : FetchMeta) (contentLength : Nat) (chunks : List Nat)
deriving Repr, DecidableEq

/-- How one `downloadFile` call ends, as seen by a `downloadBulk` task:
`ok`/`err` are the promise settling (the task's `try/catch` observes them);
`crash` is the non-settling path — a throw inside a stream event handler (the
mid-stream size check, or the `'error'` handler that rethrows before the
promise's reject listener runs) escapes the emitter as a process-level
uncaught exception and the task never settles. -/
inductive DlSettle
  | ok (info : DownloadInfo)
  | err (e : JsError)
  | crash (e : DlError)
deriving Repr, DecidableEq


/-- A failed item as pushed onto `results.failed` by `downloadBulk`. -/
structure FailedItem where
  url : String
  error : JsError
deriving Repr, DecidableEq

/-- The aggregate `results` object returned by `downloadBulk`. -/
structure BulkResult where
  total : Nat
  completed : List DownloadInfo
  failed : List FailedItem
deriving Repr, DecidableEq

/-- One `downloadFile` call.  `net u k` is the behaviour of the k-th HTTP GET
attempt for URL `u` (an environment input); the source body performs exactly
one `axios` request and never wraps it in `retryAsync` (the wrapper is
imported nowhere in src/downloader.js), so the call observes attempt 0 only.
A streamed response goes through `downloadFile`'s size-limit logic: a
declared length over the limit is thrown before streaming and rejects the
promise (the thrown `Error` has no `response`, hence status `none`); a
mid-stream overflow is the non-settling `crash` outcome (see `DlOutcome`). -/
def downloadFileOnce (maxFileSize : Nat) (net : String → Nat → FetchBehavior)
    (u : String) : DlSettle :=
  match net u 0 with
  | .httpError e => .err e
  | .stream meta contentLength chunks =>
    match (downloadFile maxFileSize contentLength chunks).outcome with
    | .resolved size =>
      .ok ⟨u, meta.filename, meta.filePath, size, meta.contentType, assignMediaType u⟩
    | .rejected _ => .err ⟨none⟩
    | .uncaught e => .crash e

/-- The per-item settling of `downloadBulk`: each task awaits its
`downloadFile` inside its own `try/catch`, pushing onto the completed or the
failed list; `Promise.allSettled` resolves once every task has settled.  When
any task hits the non-settling `crash` outcome the bulk promise never
resolves (the process dies on the uncaught exception), modelled as `none`.
Tasks settle in some interleaved order in the source; the list order here is
a fixed sequentialisation, and the claims checked are insensitive to it. -/
def bulkLists (maxFileSize : Nat) (net : String → Nat → FetchBehavior) :
    List String → Option (List DownloadInfo × List FailedItem)
  | [] => some ([], [])
  | u :: rest =>
    match downloadFileOnce maxFileSize net u with
    | .crash _ => none
    | .ok info =>
      match bulkLists maxFileSize net rest with
      | some (cs, fs) => some (info :: cs, fs)
      | none => none
    | .err e =>
      match bulkLists maxFileSize net rest with
      | some (cs, fs) => some (cs, ⟨u, e⟩ :: fs)
      | none => none

/-- `downloadBulk` from src/downloader.js: fan out one task per URL, await
them all with `Promise.allSettled`, and return the aggregate — partial
failures are captured per item and never abort the batch.  `none` is the run
that never returns because some item's stream handler threw (see
`bulkLists`). -/
def downloadBulk (maxFileSize : Nat) (net : String → Nat → FetchBehavior)
    (mediaList : List String) : Option BulkResult :=
  match bulkLists maxFileSize net mediaList with
  | some (cs, fs) => some ⟨mediaList.length, cs, fs⟩
  | none => none

/-! ## Archive builder (src/downloader.js `createZipArchive`) -/

/-- One entry of the `files` array of the manifest appended to the archive. -/
structure ManifestEntry where
  filename : String
  originalUrl : String
  contentType : String
  size : Nat
  mtype : MediaType
deriving Repr, DecidableEq

/-- The manifest JSON appended to the archive (job id and timestamp
omitted). -/
structure Manifest where
  totalFiles : Nat
  totalSize : Nat
  files : List ManifestEntry
deriving Repr, DecidableEq

/-- The produced archive: its entry names, the manifest, and the `fileCount`
reported in the resolved zip info. -/
structure ZipArchive where
  entries : List String
  manifest : Manifest
  fileCount : Nat
deriving Repr, DecidableEq

/-- The `type` string of a download, as interpolated into the entry name. -/
def typeDirName : MediaType → String
  | .image => "image"
  | .video => "video"

/-- Entry name used by `archive.file`: the template is the type string,
an `s`, a slash, then the filename. -/
def zipEntryName (t : MediaType) (filename : String) : String :=
  typeDirName t ++ "s/" ++ filename

/-- `createZipArchive` from src/downloader.js.  `onDisk` is the
`fs.existsSync` oracle: a completed file still on disk is streamed into the
archive under its type-prefixed name, a missing one is skipped without
failing; the manifest, by contrast, is built from the full completed list
regardless of disk state, and the resolved `fileCount` is
`downloadResults.completed.length`. -/
def createZipArchive (completed : List DownloadInfo)
    (onDisk : String → Bool) : ZipArchive :=
  { entries :=
      (completed.filter (fun d => onDisk d.filePath)).map
        (fun d => zipEntryName d.mtype d.filename) ++ ["manifest.json"]
    manifest :=
      { totalFiles := completed.length
        totalSize := (completed.map (fun d => d.size)).sum
        files := completed.map
          (fun d => ⟨d.filename, d.url, d.contentType, d.size, d.mtype⟩) }
    fileCount := completed.length }

/-! ## Extraction route (src/routes/api.js `router.post('/extract')`) -/

/-- An active job record as stored in the `activeJobs` map by the extract
route. -/
structure ApiJob where
  status : String
  url : String
deriving Repr, DecidableEq

/-- The two in-memory job maps of src/routes/api.js, as insertion-ordered
association lists.  Only the synchronous admission part of the route mutates
`activeJobs`; the asynchronous completion that moves a job to `jobResults` is
not involved in the admission claim. -/
structure ApiState where
  activeJobs : List (String × ApiJob)
  jobResults : List (String × String)
deriving Repr, DecidableEq

/-- The response the extract route sends synchronously. -/
inductive ExtractResponse
  | badRequest (msg : String)
  | started (jobId : String)
deriving Repr, DecidableEq

/-- JS `Map.set` on an association list: replace the value under an existing
key, otherwise append. -/
def mapSet (k : String) (v : ApiJob) : List (String × ApiJob) → List (String × ApiJob)
  | [] => [(k, v)]
  | (k0, v0) :: rest => if k0 == k then (k, v) :: rest else (k0, v0) :: mapSet k v rest

/-- The synchronous part of `router.post('/extract')` (src/routes/api.js):
reject when the URL fails validation (`urlOk` is the result of
`url && isValidUrl(url)`, an upstream check), otherwise create the job id,
store the job in `activeJobs`, and answer `started`.  The handler contains no
check of the active-job count: insertion is unconditional. -/
def extractRoute (st : ApiState) (url : String) (urlOk : Bool)
    (jobId : String) : ExtractResponse × ApiState :=
  if !urlOk then (.badRequest "Invalid URL provided", st)
  else (.started jobId,
        { st with activeJobs := mapSet jobId ⟨"extracting", url⟩ st.activeJobs })

/-! ## Browser pool (src/browser-pool.js) -/

/-- One puppeteer browser as the pool sees it: the ids of the pages the pool
opened on it (`poolPages`; the initial `about:blank` page every launched
browser carries is counted separately, so `browser.pages().length` is
`poolPages.length + 1`) and its connectedness. -/
structure PoolBrowser where
  poolPages : List Nat
  connected : Bool
deriving Repr, DecidableEq

/-- The `BrowserPool` state: browsers, the `availablePages` array (used as a
stack: JS `push`/`pop` work at the same end, modelled as the list head), the
`busyPages` set, a fresh-id counter for newly opened pages, and whether
`initPromise` is set. -/
structure PoolState where
  browsers : List PoolBrowser
  availablePages : List Nat
  busyPages : List Nat
  nextId : Nat
  initialized : Bool
deriving Repr, DecidableEq

/-- The pool caps from the constructor. -/
structure PoolConfig where
  maxBrowsers : Nat
  maxPagesPerBrowser : Nat
deriving Repr, DecidableEq

/-- The constructor defaults `options.maxBrowsers || 3` and
`options.maxPagesPerBrowser || 5`: a missing or zero option falls back, so
the effective caps are always positive. -/
def mkPoolConfig (mb mp : Nat) : PoolConfig :=
  ⟨if mb = 0 then 3 else mb, if mp = 0 then 5 else mp⟩

/-- A fresh pool: no browsers, no pages, `initPromise` unset. -/
def initialPoolState : PoolState := ⟨[], [], [], 0, false⟩

/-- All pool-opened page ids across the browsers. -/
def allPoolPages : List PoolBrowser → List Nat
  | [] => []
  | b :: bs => b.poolPages ++ allPoolPages bs

/-- JS `Set.add` on the busy list: inserting a present element is a no-op. -/
def addBusy (p : Nat) (l : List Nat) : List Nat :=
  if p ∈ l then l else p :: l

/-- `initialize`: when `initPromise` is unset, launch one browser (which
carries only its initial blank page) and record the promise.  Concurrent
first callers share the single flight; in this sequential model that is the
idempotence given by the flag. -/
def initializePool (st : PoolState) : PoolState :=
  if st.initialized then st
  else { st with browsers := st.browsers ++ [⟨[], true⟩], initialized := true }

/-- The middle branch of `acquirePage`: walk the browsers in order and open a
new page (with the given fresh id) on the first connected one whose
`pages().length` (that is, `poolPages.length + 1`) is below the per-browser
cap; `none` when no browser has spare capacity. -/
def openPageOnFirst (maxPages id : Nat) : List PoolBrowser → Option (List PoolBrowser)
  | [] => none
  | b :: bs =>
    if b.connected && b.poolPages.length + 1 < maxPages then
      some ({ b with poolPages := id :: b.poolPages } :: bs)
    else
      match openPageOnFirst maxPages id bs with
      | some bs' => some (b :: bs')
      | none => none

/-- `acquirePage` from src/browser-pool.js as one sequential step: ensure the
pool is initialized; pop an available page if any; else open a page on a
browser with spare capacity; else launch a new browser (with its blank page)
and open a page on it when under the pool cap; else the polling wait finds
nothing in a sequential step and the call times out (`none`), leaving the
state unchanged. -/
def acquirePage (cfg : PoolConfig) (st0 : PoolState) : Option Nat × PoolState :=
  let st := initializePool st0
  match st.availablePages with
  | p :: rest =>
    (some p, { st with availablePages := rest, busyPages := addBusy p st.busyPages })
  | [] =>
    match openPageOnFirst cfg.maxPagesPerBrowser st.nextId st.browsers with
    | some bs' =>
      (some st.nextId,
        { st with browsers := bs'
                  busyPages := addBusy st.nextId st.busyPages
                  nextId := st.nextId + 1 })
    | none =>
      if st.browsers.length < cfg.maxBrowsers then
        (some st.nextId,
          { st with browsers := st.browsers ++ [⟨[st.nextId], true⟩]
                    busyPages := addBusy st.nextId st.busyPages
                    nextId := st.nextId + 1 })
      else (none, st)

/-- `releasePage` from src/browser-pool.js, for a leased handle (the repo's
call sites release exactly the pages they acquired): remove the page from the
busy set; when the reset (blank navigation and storage clear, whose success
`resetOk` is an environment input) succeeds, push the page back onto the
available stack; when it fails, close the page instead — closing detaches it
from its browser, so its id leaves that browser's open pages. -/
def releasePage (st : PoolState) (p : Nat) (resetOk : Bool) : PoolState :=
  if p ∈ st.busyPages then
    if resetOk then
      { st with busyPages := st.busyPages.erase p
                availablePages := p :: st.availablePages }
    else
      { st with busyPages := st.busyPages.erase p
                browsers := st.browsers.map
                  (fun b => { b with poolPages := b.poolPages.erase p }) }
  else st

/-- `shutdown` from src/browser-pool.js: close every page and every browser,
clear the collections, and unset `initPromise` so a later acquire
bootstraps a fresh pool. -/
def shutdownPool (st : PoolState) : PoolState :=
  { st with browsers := [], availablePages := [], busyPages := [],
            initialized := false }

/-- One pool operation of a client session. -/
inductive PoolAction
  | acquire
  | releaseOk (p : Nat)
  | releaseFail (p : Nat)
  | shutdown
deriving Repr, DecidableEq

/-- Apply one pool operation to the state. -/
def stepPool (cfg : PoolConfig) (st : PoolState) : PoolAction → PoolState
  | .acquire => (acquirePage cfg st).2
  | .releaseOk p => releasePage st p true
  | .releaseFail p => releasePage st p false
  | .shutdown => shutdownPool st

/-- Run a sequence of pool operations from a given state. -/
def runPoolFrom (cfg : PoolConfig) (st : PoolState) (acts : List PoolAction) : PoolState :=
  acts.foldl (stepPool cfg) st

/-- Run a sequence of pool operations from a fresh pool. -/
def runPool (cfg : PoolConfig) (acts : List PoolAction) : PoolState :=
  runPoolFrom cfg initialPoolState acts

/-- A page handle that was discarded on a failed reset: it is open on no
browser, sits in neither the available stack nor the busy set, and its id is
below the fresh-id counter (so no later page can reuse it). -/
def DeadPage (p : Nat) (st : PoolState) : Prop :=
  p ∉ allPoolPages st.browsers ∧ p ∉ st.availablePages ∧
    p ∉ st.busyPages ∧ p < st.nextId

/-- Structural invariant of the pool state: the available and busy handles
are distinct and all open on some browser, the open page ids are distinct and
below the fresh-id counter, and an uninitialized pool is empty. -/
structure PoolCore (st : PoolState) : Prop where
  nodupHandles : (st.availablePages ++ st.busyPages).Nodup
  handlesOpen : ∀ p ∈ st.availablePages ++ st.busyPages, p ∈ allPoolPages st.browsers
  nodupOpen : (allPoolPages st.browsers).Nodup
  freshOpen : ∀ p ∈ allPoolPages st.browsers, p < st.nextId
  uninit : st.initialized = false →
    st.browsers = [] ∧ st.availablePages = [] ∧ st.busyPages = []

/-- Capacity invariant of the pool state: the browser count respects the pool
cap and each browser's pool-opened pages respect the per-browser cap. -/
structure PoolCaps (cfg : PoolConfig) (st : PoolState) : Prop where
  browserCap : st.browsers.length ≤ cfg.maxBrowsers
  pageCap : ∀ b ∈ st.browsers, b.poolPages.length ≤ cfg.maxPagesPerBrowser

/-! ## Concrete scenario inputs used by counterexamples and witnesses -/

/-- The three URLs of end-to-end scenario B of the spec. -/
def scenarioBList : List String :=
  ["https://h.example/a.jpg", "https://h.example/b.jpg", "https://h.example/c.jpg"]

/-- Network behaviour of end-to-end scenario B: the first URL streams 5 bytes
successfully, the second returns a 500 on its first two attempts and then
succeeds, the third always returns a 404. -/
def scenarioBNet : String → Nat → FetchBehavior := fun u k =>
  if u == "https://h.example/a.jpg" then
    .stream ⟨"a.jpg", "/app/downloads/images/a.jpg", "image/jpeg"⟩ 5 [5]
  else if u == "https://h.example/b.jpg" then
    (if k < 2 then .httpError ⟨some 500⟩
     else .stream ⟨"b.jpg", "/app/downloads/images/b.jpg", "image/jpeg"⟩ 7 [7])
  else .httpError ⟨some 404⟩

/-- One completed download used as a concrete archive-builder input. -/
def scenarioZipItem : DownloadInfo :=
  ⟨"https://h.example/a.jpg", "a.jpg", "/app/downloads/images/a.jpg", 5,
   "image/jpeg", .image⟩

/-- An `activeJobs` map holding 50 running extraction jobs (the
`MAX_ACTIVE_JOBS` ceiling documented by the repository), with distinct job
ids. -/
def fullActiveJobs : List (String × ApiJob) :=
  (List.range 50).map (fun i => (Nat.repr i, ⟨"extracting", "https://site.example/"⟩))

/-! # Theorems -/

/-! ## C10: filter validation -/

/-- C10: for every input filters object, `validateMediaFilters` returns a
configuration whose `minSizeBytes` is nonnegative, an input that sets both
type switches to `false` gets both reset to `true`, and the validated
configuration never excludes both media types at once. -/
theorem validateMediaFilters_safe (f : RawFilters) :
    0 ≤ (validateMediaFilters f).minSizeBytes ∧
    (f.includeImages = some false → f.includeVideos = some false →
      (validateMediaFilters f).includeImages = true ∧
      (validateMediaFilters f).includeVideos = true) ∧
    ¬((validateMediaFilters f).includeImages = false ∧
      (validateMediaFilters f).includeVideos = false) := by
  refine ⟨?_, ?_, ?_⟩
  · unfold validateMediaFilters
    dsimp only
    split <;> exact le_max_left 0 _
  · intro h1 h2
    simp [validateMediaFilters, h1, h2]
  · rintro ⟨hi, hv⟩
    cases ha : (f.includeImages == some false) <;>
      cases hb : (f.includeVideos == some false) <;>
        simp [validateMediaFilters, ha, hb] at hi hv


/-- Witness for C10 at a concrete input that sets both switches to `false`
and a negative minimum size. -/
theorem validateMediaFilters_safe_witness :
    0 ≤ (validateMediaFilters ⟨some false, some false, some (-5), none⟩).minSizeBytes ∧
    (validateMediaFilters ⟨some false, some false, some (-5), none⟩).includeImages = true ∧
    (validateMediaFilters ⟨some false, some false, some (-5), none⟩).includeVideos = true :=
  ⟨(validateMediaFilters_safe ⟨some false, some false, some (-5), none⟩).1,
   (validateMediaFilters_safe ⟨some false, some false, some (-5), none⟩).2.1 rfl rfl⟩

/-! ## C1: mid-stream size limit -/

/-- C1 (code bug): a download whose declared length is within the limit but
whose streamed bytes exceed it ends in an uncaught exception from the `'data'`
handler, not in a rejection of the awaited promise with the size-exceeded
error; the partial file is unlinked.  Failing input: `maxFileSize = 10`, no
usable content-length header, chunks summing to 11. -/
theorem downloadFile_midstream_uncaught :
    downloadFile 10 0 [6, 5] = ⟨.uncaught .sizeExceeded, false⟩ ∧
    (downloadFile 10 0 [6, 5]).outcome ≠ DlOutcome.rejected DlError.sizeExceeded := by
  decide

/-! ## C3: extraction-route admission control -/

/-- C3 (code bug): with 50 jobs already active (the repository documents
`MAX_ACTIVE_JOBS = 50` and a 429 rejection), a further valid extract request
is nevertheless answered `started` and the 51st job is inserted into the
active map — the route contains no admission check. -/
theorem extractRoute_no_admission_limit :
    fullActiveJobs.length = 50 ∧
    (extractRoute ⟨fullActiveJobs, []⟩ "https://target.example/" true "newjob").1 =
      ExtractResponse.started "newjob" ∧
    (extractRoute ⟨fullActiveJobs, []⟩ "https://target.example/" true
        "newjob").2.activeJobs.length = 51 := by
  decide

/-! ## C4: video filtering in the extraction pipeline -/

/-- Counterexample to C4 as stated: with `includeImages = true` and
`includeVideos = false`, the result still contains video-typed items, by two
routes.  An extension-less URL admitted by the keyword pattern
(`https://example.com/photo`) passes `shouldIncludeByType` — neither
`isImageType` nor `isVideoType` holds of it — and is typed `video` by
default.  And a root-relative video URL from the raw-HTML scan
(`/v/clip.mp4`) has no parseable extension before normalization, so the
pre-normalization type filter of `extractFromHtmlContent` passes it; the
normalized `https://site.example/v/clip.mp4` is then added and typed
`video`. -/
theorem extractPipeline_video_leak :
    ¬ ∀ it ∈ extractPipeline ["https://example.com/photo"] ["/v/clip.mp4"]
        "https://site.example/page.html"
        ⟨some true, some false, none, none⟩ (fun _ => none),
      it.2 ≠ MediaType.video := by
  decide

/-- C4 amended: with `includeVideos = false` after validation, the element,
srcset, style and CSS collection paths contribute no URL with a recognised
video extension — their type filter is applied to the normalized URL that is
added.  The raw-HTML scan path, by contrast, filters the raw
pre-normalization match, so a relative video URL whose recognised extension
only appears after normalization is still returned (typed `video`), and URLs
without a recognised extension are typed `video` by default and returned
under any filter. -/
theorem extractPipeline_no_video_ext :
    (∀ (domCandidates : List String) (baseUrl : String) (raw : RawFilters)
        (sizes : String → Option Int),
      (validateMediaFilters raw).includeVideos = false →
      ∀ it ∈ extractPipeline domCandidates [] baseUrl raw sizes,
        isVideoType it.1 = false) ∧
    (extractPipeline [] ["/v/clip.mp4"] "https://site.example/page.html"
        ⟨some true, some false, none, none⟩ (fun _ => none)).any
      (fun it => isVideoType it.1 && it.2 == MediaType.video) = true := by
  constructor
  · intro domCandidates baseUrl raw sizes hv it hit
    unfold extractPipeline at hit
    obtain ⟨u, hu, rfl⟩ := List.mem_map.mp hit
    have h1 := (List.mem_filter.mp hu).1
    simp only [List.filterMap_nil, List.append_nil] at h1
    obtain ⟨u0, hu0, hadd⟩ := List.mem_filterMap.mp h1
    unfold addMediaUrl at hadd
    cases hn : normalizeUrl u0 baseUrl with
    | none =>
      simp only [hn] at hadd
      exact Option.noConfusion hadd
    | some n =>
      simp only [hn] at hadd
      split at hadd
      · rename_i hcond
        injection hadd with he
        show isVideoType u = false
        cases hiv : isVideoType u with
        | false => rfl
        | true =>
          simp only [Bool.and_eq_true] at hcond
          have h3 := hcond.2
          rw [he] at h3
          simp [shouldIncludeByType, hiv, hv] at h3
      · exact Option.noConfusion hadd
  · decide

/-- Witness for the amended C4: a concrete run of the element-path half where
the hypothesis holds and every returned item (there are none, the lone `.mp4`
URL being filtered out by its normalized form) has a non-video extension. -/
theorem extractPipeline_no_video_ext_witness :
    (validateMediaFilters ⟨some true, some false, none, none⟩).includeVideos = false ∧
    ∀ it ∈ extractPipeline ["https://h.example/clip.mp4"] [] "https://h.example/"
        ⟨some true, some false, none, none⟩ (fun _ => none),
      isVideoType it.1 = false :=
  ⟨rfl, extractPipeline_no_video_ext.1 _ _ _ _ rfl⟩

/-! ## C2: retry policy -/

/-- One failing step of `retryRun` with retries remaining and a retryable
error: record the wait and recurse at the next attempt. -/
theorem retryRun_succ_retryable {a : Type} (g : Nat → Except JsError a)
    (rd bm k r : Nat) (e : JsError) (hg : g k = .error e)
    (hr : isNonRetryableStatus e = false) :
    retryRun g rd bm k (r + 1) =
      ⟨(retryRun g rd bm (k + 1) r).result,
       (retryRun g rd bm (k + 1) r).attempts + 1,
       rd * bm ^ k :: (retryRun g rd bm (k + 1) r).waits⟩ := by
  simp only [retryRun]
  rw [hg]
  simp [hr]

/-- A failure with no retries remaining propagates after a single attempt. -/
theorem retryRun_zero_error {a : Type} (g : Nat → Except JsError a)
    (rd bm k : Nat) (e : JsError) (hg : g k = .error e) :
    retryRun g rd bm k 0 = ⟨.error e, 1, []⟩ := by
  simp [retryRun, hg]

/-- On a run where every attempt fails with a retryable error, `retryRun`
makes every allowed attempt, waits `retryDelay * backoffMultiplier ^ k` before
the retry following attempt `k`, and propagates the last error. -/
theorem retryRun_allfail {a : Type} (g : Nat → Except JsError a)
    (rd bm : Nat) (ge : Nat → JsError) (hg : ∀ k, g k = .error (ge k))
    (hgr : ∀ k, isNonRetryableStatus (ge k) = false) :
    ∀ r k, retryRun g rd bm k r =
      ⟨.error (ge (k + r)), r + 1,
       (List.range r).map (fun j => rd * bm ^ (k + j))⟩ := by
  intro r
  induction r with
  | zero => intro k; exact retryRun_zero_error g rd bm k (ge k) (hg k)
  | succ r ih =>
    intro k
    rw [retryRun_succ_retryable g rd bm k r (ge k) (hg k) (hgr k), ih (k + 1)]
    have e1 : k + 1 + r = k + (r + 1) := by omega
    have e2 : (List.range (r + 1)).map (fun j => rd * bm ^ (k + j)) =
        rd * bm ^ k :: (List.range r).map (fun j => rd * bm ^ (k + 1 + j)) := by
      rw [List.range_succ_eq_map, List.map_cons, List.map_map]
      refine congrArg₂ List.cons (by simp) ?_
      refine List.map_congr_left ?_
      intro j hj
      have e3 : k + Nat.succ j = k + 1 + j := by omega
      simp [Function.comp, e3]
    rw [e1, e2]

/-- The geometric wait sequence is monotonically non-decreasing when the
backoff multiplier is at least 1. -/
theorem chain_le_geometric (c b : Nat) (hb : 1 ≤ b) (n : Nat) :
    ((List.range n).map (fun k => c * b ^ k)).Chain' (· ≤ ·) := by
  rw [List.chain'_map]
  cases n with
  | zero => simp
  | succ m =>
    rw [List.chain'_range_succ]
    intro k _
    exact Nat.mul_le_mul le_rfl (Nat.pow_le_pow_right hb (Nat.le_succ k))

/-- C2: an operation failing with a non-retryable client status (4xx other
than 429 and 408) on its first attempt is attempted exactly once, with no
wait, and the error propagates; an operation failing every time with a
retryable status is attempted exactly `maxRetries + 1` times, the wait before
the k-th retry is `retryDelay * backoffMultiplier ^ (k - 1)` (the waits list
is exactly the geometric sequence), the waits are monotonically
non-decreasing when `backoffMultiplier >= 1`, and the last error
propagates. -/
theorem retryAsync_policy {a : Type} (f g : Nat → Except JsError a)
    (maxRetries retryDelay backoffMultiplier : Nat)
    (hbm : 1 ≤ backoffMultiplier)
    (e0 : JsError) (hf : f 0 = .error e0) (hnr : isNonRetryableStatus e0 = true)
    (ge : Nat → JsError) (hg : ∀ k, g k = .error (ge k))
    (hgr : ∀ k, isNonRetryableStatus (ge k) = false) :
    retryAsync f maxRetries retryDelay backoffMultiplier = ⟨.error e0, 1, []⟩ ∧
    (retryAsync g maxRetries retryDelay backoffMultiplier).result =
      .error (ge maxRetries) ∧
    (retryAsync g maxRetries retryDelay backoffMultiplier).attempts =
      maxRetries + 1 ∧
    (retryAsync g maxRetries retryDelay backoffMultiplier).waits =
      (List.range maxRetries).map (fun k => retryDelay * backoffMultiplier ^ k) ∧
    (retryAsync g maxRetries retryDelay backoffMultiplier).waits.Chain' (· ≤ ·) := by
  have hrun := retryRun_allfail g retryDelay backoffMultiplier ge hg hgr maxRetries 0
  refine ⟨?_, ?_, ?_, ?_, ?_⟩
  · cases maxRetries with
    | zero => simp [retryAsync, retryRun, hf]
    | succ m => simp [retryAsync, retryRun, hf, hnr]
  · simp [retryAsync, hrun]
  · simp [retryAsync, hrun]
  · simp [retryAsync, hrun]
  · rw [show (retryAsync g maxRetries retryDelay backoffMultiplier).waits =
      (List.range maxRetries).map (fun k => retryDelay * backoffMultiplier ^ k)
      by simp [retryAsync, hrun]]
    exact chain_le_geometric retryDelay backoffMultiplier hbm maxRetries

/-- Witness for C2 at concrete inputs: a constant 404 failure is attempted
once with no wait, and a constant 503 failure with 3 retries is attempted 4
times. -/
theorem retryAsync_policy_witness :
    retryAsync (fun _ => (Except.error ⟨some 404⟩ : Except JsError Nat)) 3 100 2 =
      ⟨.error ⟨some 404⟩, 1, []⟩ ∧
    (retryAsync (fun _ => (Except.error ⟨some 503⟩ : Except JsError Nat))
        3 100 2).attempts = 3 + 1 :=
  ⟨(retryAsync_policy (fun _ => (Except.error ⟨some 404⟩ : Except JsError Nat))
      (fun _ => (Except.error ⟨some 503⟩ : Except JsError Nat)) 3 100 2
      (by decide) ⟨some 404⟩ rfl (by decide)
      (fun _ => ⟨some 503⟩) (fun _ => rfl) (fun _ => rfl)).1,
   (retryAsync_policy (fun _ => (Except.error ⟨some 404⟩ : Except JsError Nat))
      (fun _ => (Except.error ⟨some 503⟩ : Except JsError Nat)) 3 100 2
      (by decide) ⟨some 404⟩ rfl (by decide)
      (fun _ => ⟨some 503⟩) (fun _ => rfl) (fun _ => rfl)).2.2.1⟩

/-! ## C6: bulk download aggregation -/

/-- A settled-successful `downloadFile` call records the requested URL on its
`DownloadInfo`. -/
theorem downloadFileOnce_url (maxFileSize : Nat)
    (net : String → Nat → FetchBehavior) (u : String) (info : DownloadInfo)
    (h : downloadFileOnce maxFileSize net u = .ok info) : info.url = u := by
  unfold downloadFileOnce at h
  split at h
  · exact DlSettle.noConfusion h
  · split at h
    · injection h with h2
      rw [← h2]
    · exact DlSettle.noConfusion h
    · exact DlSettle.noConfusion h

/-- When a bulk run returns, its completed and failed counts sum to the input
length and its item URLs are exactly the input URLs. -/
theorem bulkLists_sound (maxFileSize : Nat) (net : String → Nat → FetchBehavior) :
    ∀ (l : List String) (cs : List DownloadInfo) (fs : List FailedItem),
      bulkLists maxFileSize net l = some (cs, fs) →
      cs.length + fs.length = l.length ∧
      ((cs.map (fun d => d.url)) ++ (fs.map (fun f => f.url))).Perm l := by
  intro l
  induction l with
  | nil =>
    intro cs fs h
    simp only [bulkLists, Option.some.injEq, Prod.mk.injEq] at h
    obtain ⟨h1, h2⟩ := h
    subst h1
    subst h2
    simp
  | cons u rest ih =>
    intro cs fs h
    cases hok : downloadFileOnce maxFileSize net u with
    | crash e =>
      simp only [bulkLists, hok] at h
      exact Option.noConfusion h
    | ok info =>
      simp only [bulkLists, hok] at h
      cases hrest : bulkLists maxFileSize net rest with
      | none =>
        simp only [hrest] at h
        exact Option.noConfusion h
      | some q =>
        obtain ⟨cs0, fs0⟩ := q
        simp only [hrest] at h
        injection h with h2
        injection h2 with hcs hfs
        subst hcs
        subst hfs
        obtain ⟨ihc, ihp⟩ := ih cs0 fs0 hrest
        refine ⟨?_, ?_⟩
        · simp only [List.length_cons]
          omega
        · have hurl := downloadFileOnce_url maxFileSize net u info hok
          simp only [List.map_cons, List.cons_append, hurl]
          exact ihp.cons u
    | err e =>
      simp only [bulkLists, hok] at h
      cases hrest : bulkLists maxFileSize net rest with
      | none =>
        simp only [hrest] at h
        exact Option.noConfusion h
      | some q =>
        obtain ⟨cs0, fs0⟩ := q
        simp only [hrest] at h
        injection h with h2
        injection h2 with hcs hfs
        subst hcs
        subst hfs
        obtain ⟨ihc, ihp⟩ := ih cs0 fs0 hrest
        refine ⟨?_, ?_⟩
        · simp only [List.length_cons]
          omega
        · simp only [List.map_cons]
          exact List.perm_middle.trans (ihp.cons u)

/-- A bulk run over items that all settle returns. -/
theorem bulkLists_isSome (maxFileSize : Nat) (net : String → Nat → FetchBehavior) :
    ∀ l : List String,
      (∀ u ∈ l, ∀ e, downloadFileOnce maxFileSize net u ≠ .crash e) →
      ∃ q, bulkLists maxFileSize net l = some q := by
  intro l
  induction l with
  | nil => exact fun _ => ⟨([], []), rfl⟩
  | cons u rest ih =>
    intro h
    obtain ⟨q, hq⟩ := ih (fun x hx e => h x (List.mem_cons_of_mem u hx) e)
    obtain ⟨cs0, fs0⟩ := q
    cases hok : downloadFileOnce maxFileSize net u with
    | crash e => exact absurd hok (h u (List.mem_cons_self u rest) e)
    | ok info => exact ⟨(info :: cs0, fs0), by simp [bulkLists, hok, hq]⟩
    | err e => exact ⟨(cs0, ⟨u, e⟩ :: fs0), by simp [bulkLists, hok, hq]⟩

/-- Counterexample to C6 as stated: an input list containing one item whose
stream exceeds the size limit makes `downloadBulk` never return — the
mid-stream size-cap throw escapes the item's `'data'` handler (the defect
recorded under C1), the task never settles, and `Promise.allSettled` never
resolves; `none` is that non-returning run. -/
theorem downloadBulk_never_returns :
    downloadBulk 10
      (fun _ _ => FetchBehavior.stream
        ⟨"big.jpg", "/app/downloads/images/big.jpg", "image/jpeg"⟩ 0 [11])
      ["https://h.example/big.jpg"] = none := by
  decide

/-- C6 amended: whenever every per-item `downloadFile` call settles (no
mid-stream size-cap crash), `downloadBulk` returns normally after all items
settle; and any returned aggregate has `total` equal to the input length,
completed plus failed counts summing to the input length, and the input URLs
exactly the completed-item URLs plus the failed-item URLs.  An input with an
item whose stream exceeds the ceiling never returns. -/
theorem downloadBulk_partition (maxFileSize : Nat)
    (net : String → Nat → FetchBehavior) (l : List String) :
    ((∀ u ∈ l, ∀ e, downloadFileOnce maxFileSize net u ≠ DlSettle.crash e) →
      ∃ r, downloadBulk maxFileSize net l = some r) ∧
    (∀ r, downloadBulk maxFileSize net l = some r →
      r.total = l.length ∧
      r.completed.length + r.failed.length = l.length ∧
      ((r.completed.map (fun d => d.url)) ++
        (r.failed.map (fun f => f.url))).Perm l) := by
  constructor
  · intro h
    obtain ⟨⟨cs, fs⟩, hq⟩ := bulkLists_isSome maxFileSize net l h
    exact ⟨⟨l.length, cs, fs⟩, by simp [downloadBulk, hq]⟩
  · intro r hr
    unfold downloadBulk at hr
    cases hq : bulkLists maxFileSize net l with
    | none =>
      simp only [hq] at hr
      exact Option.noConfusion hr
    | some q =>
      obtain ⟨cs, fs⟩ := q
      simp only [hq] at hr
      injection hr with h2
      subst h2
      obtain ⟨hc, hperm⟩ := bulkLists_sound maxFileSize net l cs fs hq
      exact ⟨rfl, hc, hperm⟩

/-- Witness for the amended C6: in scenario B every item settles, so the bulk
call returns. -/
theorem downloadBulk_partition_witness :
    (∀ u ∈ scenarioBList, ∀ e,
      downloadFileOnce 104857600 scenarioBNet u ≠ DlSettle.crash e) ∧
    ∃ r, downloadBulk 104857600 scenarioBNet scenarioBList = some r :=
  ⟨by decide,
   (downloadBulk_partition 104857600 scenarioBNet scenarioBList).1 (by decide)⟩

/-! ## C5: no retry on the download path -/

/-- Counterexample to C5 as stated: in scenario B (one URL succeeding, one
returning 500 on its first two attempts, one returning 404), the job result
the bulk call returns does not have 2 completed and 1 failed item —
`downloadFile` is not wrapped in the retry helper, so the 500-URL fails on
its single attempt. -/
theorem downloadBulk_scenarioB_counts :
    ¬ ∀ r, downloadBulk 104857600 scenarioBNet scenarioBList = some r →
      r.completed.length = 2 ∧ r.failed.length = 1 := by
  intro h
  have h2 := h ⟨3,
    [⟨"https://h.example/a.jpg", "a.jpg", "/app/downloads/images/a.jpg", 5,
      "image/jpeg", MediaType.image⟩],
    [⟨"https://h.example/b.jpg", ⟨some 500⟩⟩,
     ⟨"https://h.example/c.jpg", ⟨some 404⟩⟩]⟩ (by decide)
  simp at h2

/-- C5 amended: the retry wrapper is not applied on the download path —
`downloadBulk` consults only attempt 0 of every URL, so scenario B returns
with exactly 1 completed item and 2 failed items, the 500-URL and the
404-URL each failing on their single attempt with their status recorded. -/
theorem downloadBulk_no_retry :
    downloadBulk 104857600 scenarioBNet scenarioBList =
      some ⟨3,
        [⟨"https://h.example/a.jpg", "a.jpg", "/app/downloads/images/a.jpg", 5,
          "image/jpeg", MediaType.image⟩],
        [⟨"https://h.example/b.jpg", ⟨some 500⟩⟩,
         ⟨"https://h.example/c.jpg", ⟨some 404⟩⟩]⟩ ∧
    ∀ (maxFileSize : Nat) (net net' : String → Nat → FetchBehavior)
      (l : List String),
      (∀ u, net u 0 = net' u 0) →
      downloadBulk maxFileSize net l = downloadBulk maxFileSize net' l := by
  constructor
  · decide
  · intro maxFileSize net net' l h
    have hlists : bulkLists maxFileSize net l = bulkLists maxFileSize net' l := by
      induction l with
      | nil => rfl
      | cons u rest ih => simp [bulkLists, downloadFileOnce, h u, ih]
    simp [downloadBulk, hlists]

/-- Witness for the amended C5: the bulk result of scenario B coincides with
the result under a network that only ever serves first attempts. -/
theorem downloadBulk_no_retry_witness :
    downloadBulk 104857600 scenarioBNet scenarioBList =
      downloadBulk 104857600 (fun u _ => scenarioBNet u 0) scenarioBList :=
  downloadBulk_no_retry.2 104857600 scenarioBNet
    (fun u _ => scenarioBNet u 0) scenarioBList (fun _ => rfl)

/-! ## C7: archive manifest -/

/-- Counterexample to C7 as stated: when a completed item's source file is
missing on disk, the builder skips it from the archive but still lists it in
the manifest, so not every manifest-listed file is present in the archive
under its type-prefixed entry name. -/
theorem createZipArchive_missing_still_listed :
    ¬ ∀ f ∈ (createZipArchive [scenarioZipItem] (fun _ => false)).manifest.files,
      zipEntryName f.mtype f.filename ∈
        (createZipArchive [scenarioZipItem] (fun _ => false)).entries := by
  decide

/-- C7 amended: the manifest's file count and aggregate size equal the count
and size sum over the completed items (as does the reported `fileCount`), the
manifest lists every completed item, and every completed item whose source
file is still on disk appears in the archive under its type-prefixed entry
name; items missing on disk are skipped from the archive (without failing)
while remaining listed in the manifest. -/
theorem createZipArchive_manifest (completed : List DownloadInfo)
    (onDisk : String → Bool) :
    (createZipArchive completed onDisk).manifest.totalFiles = completed.length ∧
    (createZipArchive completed onDisk).manifest.totalSize =
      (completed.map (fun d => d.size)).sum ∧
    (createZipArchive completed onDisk).fileCount = completed.length ∧
    (createZipArchive completed onDisk).manifest.files =
      completed.map (fun d => ⟨d.filename, d.url, d.contentType, d.size, d.mtype⟩) ∧
    ∀ d ∈ completed, onDisk d.filePath = true →
      zipEntryName d.mtype d.filename ∈ (createZipArchive completed onDisk).entries := by
  refine ⟨rfl, rfl, rfl, rfl, ?_⟩
  intro d hd hdisk
  unfold createZipArchive
  dsimp only
  apply List.mem_append_left
  exact List.mem_map_of_mem _ (List.mem_filter.mpr ⟨hd, hdisk⟩)

/-- Witness for the amended C7: a present source file lands in the archive
under its type-prefixed name. -/
theorem createZipArchive_manifest_witness :
    (fun _ => true) scenarioZipItem.filePath = true ∧
    zipEntryName scenarioZipItem.mtype scenarioZipItem.filename ∈
      (createZipArchive [scenarioZipItem] (fun _ => true)).entries :=
  ⟨rfl,
   (createZipArchive_manifest [scenarioZipItem] (fun _ => true)).2.2.2.2
     scenarioZipItem (by simp) rfl⟩

/-! ## Pool helper lemmas -/

theorem allPoolPages_append (l1 l2 : List PoolBrowser) :
    allPoolPages (l1 ++ l2) = allPoolPages l1 ++ allPoolPages l2 := by
  induction l1 with
  | nil => rfl
  | cons b bs ih => simp [allPoolPages, ih]

theorem addBusy_of_not_mem {p : Nat} {l : List Nat} (h : p ∉ l) :
    addBusy p l = p :: l := by
  simp [addBusy, h]

theorem initializePool_initialized (st : PoolState) :
    (initializePool st).initialized = true := by
  cases h : st.initialized <;> simp [initializePool, h]

theorem initializePool_fields (st : PoolState) :
    (initializePool st).availablePages = st.availablePages ∧
    (initializePool st).busyPages = st.busyPages ∧
    (initializePool st).nextId = st.nextId ∧
    allPoolPages (initializePool st).browsers = allPoolPages st.browsers := by
  cases h : st.initialized <;>
    simp [initializePool, h, allPoolPages_append, allPoolPages]

theorem openPageOnFirst_split (mp id : Nat) (bs : List PoolBrowser) :
    ∀ bs', openPageOnFirst mp id bs = some bs' →
      ∃ l1 l2, allPoolPages bs = l1 ++ l2 ∧
        allPoolPages bs' = l1 ++ id :: l2 ∧ bs'.length = bs.length := by
  induction bs with
  | nil => intro bs' h; exact absurd h (by simp [openPageOnFirst])
  | cons b bs ih =>
    intro bs' h
    simp only [openPageOnFirst] at h
    split at h
    · cases h
      exact ⟨[], b.poolPages ++ allPoolPages bs, by simp [allPoolPages],
        by simp [allPoolPages], by simp⟩
    · split at h
      · rename_i bs0 heq
        cases h
        obtain ⟨l1, l2, e1, e2, e3⟩ := ih bs0 heq
        refine ⟨b.poolPages ++ l1, l2, ?_, ?_, ?_⟩
        · simp [allPoolPages, e1]
        · simp [allPoolPages, e2]
        · simp [e3]
      · exact Option.noConfusion h

theorem openPageOnFirst_caps (mp id : Nat) (bs : List PoolBrowser) :
    ∀ bs', openPageOnFirst mp id bs = some bs' →
      (∀ b ∈ bs, b.poolPages.length ≤ mp) →
      ∀ b ∈ bs', b.poolPages.length ≤ mp := by
  induction bs with
  | nil => intro bs' h; exact absurd h (by simp [openPageOnFirst])
  | cons b bs ih =>
    intro bs' h hcap
    simp only [openPageOnFirst] at h
    split at h
    · rename_i hcond
      cases h
      simp only [Bool.and_eq_true, decide_eq_true_eq] at hcond
      intro b' hb'
      rcases List.mem_cons.mp hb' with h1 | h1
      · rw [h1]
        simp only [List.length_cons]
        omega
      · exact hcap b' (List.mem_cons_of_mem b h1)
    · split at h
      · rename_i bs0 heq
        cases h
        intro b' hb'
        rcases List.mem_cons.mp hb' with h1 | h1
        · rw [h1]; exact hcap b (List.mem_cons_self b bs)
        · exact ih bs0 heq (fun x hx => hcap x (List.mem_cons_of_mem b hx)) b' h1
      · exact Option.noConfusion h

theorem allPoolPages_eraseMap_sublist (p : Nat) (bs : List PoolBrowser) :
    List.Sublist
      (allPoolPages (bs.map (fun b => { b with poolPages := b.poolPages.erase p })))
      (allPoolPages bs) := by
  induction bs with
  | nil => simp [allPoolPages]
  | cons b bs ih =>
    simpa [allPoolPages] using List.Sublist.append (List.erase_sublist p b.poolPages) ih

theorem not_mem_allPoolPages_eraseMap (p : Nat) (bs : List PoolBrowser)
    (hnd : (allPoolPages bs).Nodup) :
    p ∉ allPoolPages (bs.map (fun b => { b with poolPages := b.poolPages.erase p })) := by
  induction bs with
  | nil => simp [allPoolPages]
  | cons b bs ih =>
    simp only [allPoolPages, List.map_cons] at hnd ⊢
    intro hmem
    rcases List.mem_append.mp hmem with hm | hm
    · exact ((List.nodup_append.mp hnd).1).not_mem_erase hm
    · exact ih (List.nodup_append.mp hnd).2.1 hm

theorem mem_allPoolPages_eraseMap_of_ne (p q : Nat) (bs : List PoolBrowser)
    (hne : q ≠ p) (hq : q ∈ allPoolPages bs) :
    q ∈ allPoolPages (bs.map (fun b => { b with poolPages := b.poolPages.erase p })) := by
  induction bs with
  | nil => exact absurd hq (by simp [allPoolPages])
  | cons b bs ih =>
    simp only [allPoolPages, List.map_cons, List.mem_append] at hq ⊢
    rcases hq with hm | hm
    · exact Or.inl ((List.mem_erase_of_ne hne).mpr hm)
    · exact Or.inr (ih hm)

theorem acquirePage_eq_pop (cfg : PoolConfig) (st : PoolState) (p : Nat)
    (rest : List Nat)
    (hav : (initializePool st).availablePages = p :: rest) :
    acquirePage cfg st = (some p,
      { (initializePool st) with
        availablePages := rest
        busyPages := addBusy p (initializePool st).busyPages }) := by
  rw [acquirePage, hav]

theorem acquirePage_eq_open (cfg : PoolConfig) (st : PoolState)
    (bs' : List PoolBrowser)
    (hav : (initializePool st).availablePages = [])
    (hop : openPageOnFirst cfg.maxPagesPerBrowser (initializePool st).nextId
      (initializePool st).browsers = some bs') :
    acquirePage cfg st = (some (initializePool st).nextId,
      { (initializePool st) with
        browsers := bs'
        busyPages := addBusy (initializePool st).nextId (initializePool st).busyPages
        nextId := (initializePool st).nextId + 1 }) := by
  simp [acquirePage, hav, hop]

theorem acquirePage_eq_newBrowser (cfg : PoolConfig) (st : PoolState)
    (hav : (initializePool st).availablePages = [])
    (hop : openPageOnFirst cfg.maxPagesPerBrowser (initializePool st).nextId
      (initializePool st).browsers = none)
    (hlen : (initializePool st).browsers.length < cfg.maxBrowsers) :
    acquirePage cfg st = (some (initializePool st).nextId,
      { (initializePool st) with
        browsers := (initializePool st).browsers ++
          [⟨[(initializePool st).nextId], true⟩]
        busyPages := addBusy (initializePool st).nextId (initializePool st).busyPages
        nextId := (initializePool st).nextId + 1 }) := by
  simp [acquirePage, hav, hop, hlen]

theorem acquirePage_eq_timeout (cfg : PoolConfig) (st : PoolState)
    (hav : (initializePool st).availablePages = [])
    (hop : openPageOnFirst cfg.maxPagesPerBrowser (initializePool st).nextId
      (initializePool st).browsers = none)
    (hlen : ¬ (initializePool st).browsers.length < cfg.maxBrowsers) :
    acquirePage cfg st = (none, initializePool st) := by
  simp [acquirePage, hav, hop, hlen]

/-! ## Pool core invariant preservation -/

theorem poolCore_initialize (st : PoolState) (h : PoolCore st) :
    PoolCore (initializePool st) := by
  cases hi : st.initialized with
  | true => simpa [initializePool, hi] using h
  | false =>
    obtain ⟨hb, ha, hbu⟩ := h.uninit hi
    refine ⟨?_, ?_, ?_, ?_, ?_⟩ <;>
      simp [initializePool, hi, hb, ha, hbu, allPoolPages]

theorem poolCore_pop (s : PoolState) (h : PoolCore s) (hinit : s.initialized = true)
    (p : Nat) (rest : List Nat) (hav : s.availablePages = p :: rest) :
    PoolCore { s with
      availablePages := rest
      busyPages := addBusy p s.busyPages } := by
  have hnd : (p :: (rest ++ s.busyPages)).Nodup := by
    have h0 := h.nodupHandles
    rw [hav] at h0
    exact h0
  have hpb : p ∉ s.busyPages := fun hmem =>
    (List.nodup_cons.mp hnd).1 (List.mem_append_right rest hmem)
  have hbusy : addBusy p s.busyPages = p :: s.busyPages := addBusy_of_not_mem hpb
  refine ⟨?_, ?_, h.nodupOpen, h.freshOpen, ?_⟩
  · show (rest ++ addBusy p s.busyPages).Nodup
    rw [hbusy]
    exact List.nodup_middle.mpr hnd
  · show ∀ q ∈ rest ++ addBusy p s.busyPages, q ∈ allPoolPages s.browsers
    rw [hbusy]
    intro q hq
    apply h.handlesOpen
    rw [hav]
    rcases List.mem_append.mp hq with hm | hm
    · exact List.mem_append_left _ (List.mem_cons_of_mem p hm)
    · rcases List.mem_cons.mp hm with he | hm2
      · apply List.mem_append_left
        rw [he]
        exact List.mem_cons_self p rest
      · exact List.mem_append_right _ hm2
  · intro h2
    have h3 : s.initialized = false := h2
    rw [hinit] at h3
    exact Bool.noConfusion h3

theorem poolCore_open (s : PoolState) (h : PoolCore s) (hinit : s.initialized = true)
    (mp : Nat) (bs' : List PoolBrowser) (hav : s.availablePages = [])
    (hop : openPageOnFirst mp s.nextId s.browsers = some bs') :
    PoolCore { s with
      browsers := bs'
      busyPages := addBusy s.nextId s.busyPages
      nextId := s.nextId + 1 } := by
  obtain ⟨l1, l2, he1, he2, hlen⟩ := openPageOnFirst_split mp s.nextId s.browsers bs' hop
  have hfresh : s.nextId ∉ allPoolPages s.browsers := fun hmem =>
    lt_irrefl _ (h.freshOpen _ hmem)
  have hnb : s.nextId ∉ s.busyPages := fun hmem =>
    lt_irrefl _ (h.freshOpen _ (h.handlesOpen _ (List.mem_append_right _ hmem)))
  have hbusy : addBusy s.nextId s.busyPages = s.nextId :: s.busyPages :=
    addBusy_of_not_mem hnb
  have hbusnd : s.busyPages.Nodup := (List.nodup_append.mp h.nodupHandles).2.1
  refine ⟨?_, ?_, ?_, ?_, ?_⟩
  · show (s.availablePages ++ addBusy s.nextId s.busyPages).Nodup
    rw [hav, hbusy]
    exact List.nodup_cons.mpr ⟨hnb, hbusnd⟩
  · show ∀ q ∈ s.availablePages ++ addBusy s.nextId s.busyPages, q ∈ allPoolPages bs'
    rw [hav, hbusy, he2]
    intro q hq
    rcases List.mem_cons.mp hq with he | hm
    · rw [he]
      exact List.mem_append_right l1 (List.mem_cons_self _ l2)
    · have hq2 : q ∈ l1 ++ l2 := by
        rw [← he1]
        exact h.handlesOpen q (List.mem_append_right _ hm)
      rcases List.mem_append.mp hq2 with hm2 | hm2
      · exact List.mem_append_left _ hm2
      · exact List.mem_append_right _ (List.mem_cons_of_mem _ hm2)
  · show (allPoolPages bs').Nodup
    rw [he2]
    refine List.nodup_middle.mpr (List.nodup_cons.mpr ⟨?_, ?_⟩)
    · rw [← he1]; exact hfresh
    · rw [← he1]; exact h.nodupOpen
  · show ∀ q ∈ allPoolPages bs', q < s.nextId + 1
    rw [he2]
    intro q hq
    rcases List.mem_append.mp hq with hm | hm
    · have hq3 : q ∈ allPoolPages s.browsers := by
        rw [he1]; exact List.mem_append_left _ hm
      exact Nat.lt_succ_of_lt (h.freshOpen q hq3)
    · rcases List.mem_cons.mp hm with he | hm2
      · rw [he]; exact Nat.lt_succ_self _
      · have hq3 : q ∈ allPoolPages s.browsers := by
          rw [he1]; exact List.mem_append_right _ hm2
        exact Nat.lt_succ_of_lt (h.freshOpen q hq3)
  · intro h2
    have h3 : s.initialized = false := h2
    rw [hinit] at h3
    exact Bool.noConfusion h3

theorem poolCore_newBrowser (s : PoolState) (h : PoolCore s)
    (hinit : s.initialized = true) (hav : s.availablePages = []) :
    PoolCore { s with
      browsers := s.browsers ++ [⟨[s.nextId], true⟩]
      busyPages := addBusy s.nextId s.busyPages
      nextId := s.nextId + 1 } := by
  have hall : allPoolPages (s.browsers ++ [⟨[s.nextId], true⟩]) =
      allPoolPages s.browsers ++ [s.nextId] := by
    rw [allPoolPages_append]; simp [allPoolPages]
  have hfresh : s.nextId ∉ allPoolPages s.browsers := fun hmem =>
    lt_irrefl _ (h.freshOpen _ hmem)
  have hnb : s.nextId ∉ s.busyPages := fun hmem =>
    lt_irrefl _ (h.freshOpen _ (h.handlesOpen _ (List.mem_append_right _ hmem)))
  have hbusy : addBusy s.nextId s.busyPages = s.nextId :: s.busyPages :=
    addBusy_of_not_mem hnb
  have hbusnd : s.busyPages.Nodup := (List.nodup_append.mp h.nodupHandles).2.1
  refine ⟨?_, ?_, ?_, ?_, ?_⟩
  · show (s.availablePages ++ addBusy s.nextId s.busyPages).Nodup
    rw [hav, hbusy]
    exact List.nodup_cons.mpr ⟨hnb, hbusnd⟩
  · show ∀ q ∈ s.availablePages ++ addBusy s.nextId s.busyPages,
      q ∈ allPoolPages (s.browsers ++ [⟨[s.nextId], true⟩])
    rw [hav, hbusy, hall]
    intro q hq
    rcases List.mem_cons.mp hq with he | hm
    · rw [he]
      exact List.mem_append_right _ (List.mem_singleton.mpr rfl)
    · exact List.mem_append_left _ (h.handlesOpen q (List.mem_append_right _ hm))
  · rw [hall]
    refine List.nodup_middle.mpr (List.nodup_cons.mpr ⟨?_, ?_⟩)
    · simpa using hfresh
    · simpa using h.nodupOpen
  · rw [hall]
    intro q hq
    rcases List.mem_append.mp hq with hm | hm
    · exact Nat.lt_succ_of_lt (h.freshOpen q hm)
    · rw [List.mem_singleton.mp hm]
      exact Nat.lt_succ_self _
  · intro h2
    have h3 : s.initialized = false := h2
    rw [hinit] at h3
    exact Bool.noConfusion h3

theorem poolCore_releaseOk (s : PoolState) (h : PoolCore s) (p : Nat) :
    PoolCore (releasePage s p true) := by
  by_cases hp : p ∈ s.busyPages
  · have heq : releasePage s p true = { s with
        busyPages := s.busyPages.erase p
        availablePages := p :: s.availablePages } := by
      simp [releasePage, hp]
    rw [heq]
    have hperm : ((p :: s.availablePages) ++ s.busyPages.erase p).Perm
        (s.availablePages ++ s.busyPages) :=
      List.Perm.trans List.perm_middle.symm
        (List.Perm.append_left _ (List.perm_cons_erase hp).symm)
    refine ⟨?_, ?_, h.nodupOpen, h.freshOpen, ?_⟩
    · exact hperm.nodup_iff.mpr h.nodupHandles
    · intro q hq
      exact h.handlesOpen q (hperm.mem_iff.mp hq)
    · intro h2
      obtain ⟨_, _, hb⟩ := h.uninit h2
      rw [hb] at hp
      exact absurd hp (List.not_mem_nil p)
  · simpa [releasePage, hp] using h

theorem poolCore_releaseFail (s : PoolState) (h : PoolCore s) (p : Nat) :
    PoolCore (releasePage s p false) := by
  by_cases hp : p ∈ s.busyPages
  · have heq : releasePage s p false = { s with
        busyPages := s.busyPages.erase p
        browsers := s.browsers.map
          (fun b => { b with poolPages := b.poolPages.erase p }) } := by
      simp [releasePage, hp]
    rw [heq]
    have hdisj := List.disjoint_of_nodup_append h.nodupHandles
    have hbusnd : s.busyPages.Nodup := (List.nodup_append.mp h.nodupHandles).2.1
    refine ⟨?_, ?_, ?_, ?_, ?_⟩
    · show (s.availablePages ++ s.busyPages.erase p).Nodup
      exact ((List.Sublist.refl s.availablePages).append
        (List.erase_sublist p s.busyPages)).nodup h.nodupHandles
    · intro q hq
      rcases List.mem_append.mp hq with hm | hm
      · have hqp : q ≠ p := fun he => hdisj (he ▸ hm) hp
        exact mem_allPoolPages_eraseMap_of_ne p q s.browsers hqp
          (h.handlesOpen q (List.mem_append_left _ hm))
      · obtain ⟨hqp, hqb⟩ := (List.Nodup.mem_erase_iff hbusnd).mp hm
        exact mem_allPoolPages_eraseMap_of_ne p q s.browsers hqp
          (h.handlesOpen q (List.mem_append_right _ hqb))
    · exact (allPoolPages_eraseMap_sublist p s.browsers).nodup h.nodupOpen
    · intro q hq
      exact h.freshOpen q ((allPoolPages_eraseMap_sublist p s.browsers).subset hq)
    · intro h2
      obtain ⟨_, _, hb⟩ := h.uninit h2
      rw [hb] at hp
      exact absurd hp (List.not_mem_nil p)
  · simpa [releasePage, hp] using h

theorem poolCore_shutdown (s : PoolState) : PoolCore (shutdownPool s) := by
  refine ⟨?_, ?_, ?_, ?_, ?_⟩ <;> simp [shutdownPool, allPoolPages]

theorem poolCore_acquire (cfg : PoolConfig) (st : PoolState) (h : PoolCore st) :
    PoolCore (acquirePage cfg st).2 := by
  have h1 := poolCore_initialize st h
  have hinit := initializePool_initialized st
  cases hav : (initializePool st).availablePages with
  | cons p rest =>
    rw [acquirePage_eq_pop cfg st p rest hav]
    exact poolCore_pop _ h1 hinit p rest hav
  | nil =>
    cases hop : openPageOnFirst cfg.maxPagesPerBrowser (initializePool st).nextId
        (initializePool st).browsers with
    | some bs' =>
      rw [acquirePage_eq_open cfg st bs' hav hop]
      exact poolCore_open _ h1 hinit cfg.maxPagesPerBrowser bs' hav hop
    | none =>
      by_cases hlen : (initializePool st).browsers.length < cfg.maxBrowsers
      · rw [acquirePage_eq_newBrowser cfg st hav hop hlen]
        exact poolCore_newBrowser _ h1 hinit hav
      · rw [acquirePage_eq_timeout cfg st hav hop hlen]
        exact h1

theorem poolCore_step (cfg : PoolConfig) (st : PoolState) (a : PoolAction)
    (h : PoolCore st) : PoolCore (stepPool cfg st a) := by
  cases a with
  | acquire => exact poolCore_acquire cfg st h
  | releaseOk p => exact poolCore_releaseOk st h p
  | releaseFail p => exact poolCore_releaseFail st h p
  | shutdown => exact poolCore_shutdown st

theorem poolCore_runFrom (cfg : PoolConfig) (acts : List PoolAction) :
    ∀ st, PoolCore st → PoolCore (runPoolFrom cfg st acts) := by
  induction acts with
  | nil => exact fun st h => h
  | cons a acts ih => exact fun st h => ih _ (poolCore_step cfg st a h)

theorem poolCore_initial : PoolCore initialPoolState := by
  refine ⟨?_, ?_, ?_, ?_, ?_⟩ <;> simp [initialPoolState, allPoolPages]

/-! ## Pool capacity invariant and the busy bound (C8) -/

theorem poolCaps_initialize (cfg : PoolConfig) (st : PoolState)
    (hB : 1 ≤ cfg.maxBrowsers) (hcore : PoolCore st) (hcaps : PoolCaps cfg st) :
    PoolCaps cfg (initializePool st) := by
  cases hi : st.initialized with
  | true => simpa [initializePool, hi] using hcaps
  | false =>
    obtain ⟨hb, _, _⟩ := hcore.uninit hi
    refine ⟨?_, ?_⟩
    · simpa [initializePool, hi, hb] using hB
    · intro b hbm
      simp [initializePool, hi, hb] at hbm
      rw [hbm]
      simp

theorem poolCaps_acquire (cfg : PoolConfig) (st : PoolState)
    (hB : 1 ≤ cfg.maxBrowsers) (hP : 1 ≤ cfg.maxPagesPerBrowser)
    (hcore : PoolCore st) (hcaps : PoolCaps cfg st) :
    PoolCaps cfg (acquirePage cfg st).2 := by
  have h1caps := poolCaps_initialize cfg st hB hcore hcaps
  cases hav : (initializePool st).availablePages with
  | cons p rest =>
    rw [acquirePage_eq_pop cfg st p rest hav]
    exact ⟨h1caps.browserCap, h1caps.pageCap⟩
  | nil =>
    cases hop : openPageOnFirst cfg.maxPagesPerBrowser (initializePool st).nextId
        (initializePool st).browsers with
    | some bs' =>
      rw [acquirePage_eq_open cfg st bs' hav hop]
      obtain ⟨l1, l2, _, _, hlen⟩ := openPageOnFirst_split _ _ _ bs' hop
      refine ⟨?_, ?_⟩
      · show bs'.length ≤ cfg.maxBrowsers
        rw [hlen]
        exact h1caps.browserCap
      · exact openPageOnFirst_caps _ _ _ bs' hop h1caps.pageCap
    | none =>
      by_cases hlen : (initializePool st).browsers.length < cfg.maxBrowsers
      · rw [acquirePage_eq_newBrowser cfg st hav hop hlen]
        refine ⟨?_, ?_⟩
        · show ((initializePool st).browsers ++
            ([⟨[(initializePool st).nextId], true⟩] : List PoolBrowser)).length ≤
              cfg.maxBrowsers
          rw [List.length_append]
          simp only [List.length_singleton]
          omega
        · intro b hbm
          rcases List.mem_append.mp hbm with hm | hm
          · exact h1caps.pageCap b hm
          · rw [List.mem_singleton.mp hm]
            simpa using hP
      · rw [acquirePage_eq_timeout cfg st hav hop hlen]
        exact h1caps

theorem poolCaps_release (cfg : PoolConfig) (st : PoolState) (p : Nat) (b : Bool)
    (hcaps : PoolCaps cfg st) : PoolCaps cfg (releasePage st p b) := by
  by_cases hp : p ∈ st.busyPages
  · cases b with
    | false =>
      have heq : releasePage st p false = { st with
          busyPages := st.busyPages.erase p
          browsers := st.browsers.map
            (fun br => { br with poolPages := br.poolPages.erase p }) } := by
        simp [releasePage, hp]
      rw [heq]
      refine ⟨?_, ?_⟩
      · show (st.browsers.map _).length ≤ cfg.maxBrowsers
        rw [List.length_map]
        exact hcaps.browserCap
      · intro b' hb'
        obtain ⟨b0, hb0, hbeq⟩ := List.mem_map.mp hb'
        rw [← hbeq]
        exact le_trans (List.erase_sublist p b0.poolPages).length_le
          (hcaps.pageCap b0 hb0)
    | true =>
      have heq : releasePage st p true = { st with
          busyPages := st.busyPages.erase p
          availablePages := p :: st.availablePages } := by
        simp [releasePage, hp]
      rw [heq]
      exact ⟨hcaps.browserCap, hcaps.pageCap⟩
  · simpa [releasePage, hp] using hcaps

theorem poolCaps_shutdown (cfg : PoolConfig) (st : PoolState) :
    PoolCaps cfg (shutdownPool st) := by
  refine ⟨?_, ?_⟩ <;> simp [shutdownPool]

theorem poolInv_step (cfg : PoolConfig) (st : PoolState) (a : PoolAction)
    (hB : 1 ≤ cfg.maxBrowsers) (hP : 1 ≤ cfg.maxPagesPerBrowser)
    (hcore : PoolCore st) (hcaps : PoolCaps cfg st) :
    PoolCore (stepPool cfg st a) ∧ PoolCaps cfg (stepPool cfg st a) := by
  cases a with
  | acquire =>
    exact ⟨poolCore_acquire cfg st hcore, poolCaps_acquire cfg st hB hP hcore hcaps⟩
  | releaseOk p =>
    exact ⟨poolCore_releaseOk st hcore p, poolCaps_release cfg st p true hcaps⟩
  | releaseFail p =>
    exact ⟨poolCore_releaseFail st hcore p, poolCaps_release cfg st p false hcaps⟩
  | shutdown => exact ⟨poolCore_shutdown st, poolCaps_shutdown cfg st⟩

theorem poolInv_runFrom (cfg : PoolConfig)
    (hB : 1 ≤ cfg.maxBrowsers) (hP : 1 ≤ cfg.maxPagesPerBrowser)
    (acts : List PoolAction) :
    ∀ st, PoolCore st → PoolCaps cfg st →
      PoolCore (runPoolFrom cfg st acts) ∧ PoolCaps cfg (runPoolFrom cfg st acts) := by
  induction acts with
  | nil => exact fun st h1 h2 => ⟨h1, h2⟩
  | cons a acts ih =>
    intro st h1 h2
    obtain ⟨h1s, h2s⟩ := poolInv_step cfg st a hB hP h1 h2
    exact ih _ h1s h2s

theorem poolCaps_initial (cfg : PoolConfig) : PoolCaps cfg initialPoolState := by
  refine ⟨?_, ?_⟩ <;> simp [initialPoolState]

theorem allPoolPages_length_le (mp : Nat) (bs : List PoolBrowser)
    (h : ∀ b ∈ bs, b.poolPages.length ≤ mp) :
    (allPoolPages bs).length ≤ bs.length * mp := by
  induction bs with
  | nil => simp [allPoolPages]
  | cons b bs ih =>
    have hb := h b (List.mem_cons_self b bs)
    have ht := ih (fun x hx => h x (List.mem_cons_of_mem b hx))
    simp only [allPoolPages, List.length_append, List.length_cons]
    have hmul : (bs.length + 1) * mp = bs.length * mp + mp := by ring
    omega

theorem busy_le_cap (cfg : PoolConfig) (st : PoolState)
    (hcore : PoolCore st) (hcaps : PoolCaps cfg st) :
    st.busyPages.length ≤ cfg.maxBrowsers * cfg.maxPagesPerBrowser := by
  have h1 : st.busyPages.length ≤ (st.availablePages ++ st.busyPages).length := by
    rw [List.length_append]
    omega
  have h2 : (st.availablePages ++ st.busyPages).length ≤
      (allPoolPages st.browsers).length :=
    ((hcore.nodupHandles).subperm hcore.handlesOpen).length_le
  have h3 := allPoolPages_length_le cfg.maxPagesPerBrowser st.browsers hcaps.pageCap
  have h4 : st.browsers.length * cfg.maxPagesPerBrowser ≤
      cfg.maxBrowsers * cfg.maxPagesPerBrowser :=
    Nat.mul_le_mul hcaps.browserCap le_rfl
  omega

/-- C8: for every sequence of pool operations from a fresh pool configured
with caps `maxBrowsers` and `maxPagesPerBrowser` (the constructor replaces a
missing or zero option by its default, so the effective caps are positive),
the number of concurrently busy page handles never exceeds
`maxBrowsers * maxPagesPerBrowser` at any reachable state. -/
theorem runPool_busy_bounded (mb mp : Nat) (acts : List PoolAction) :
    (runPool (mkPoolConfig mb mp) acts).busyPages.length ≤
      (mkPoolConfig mb mp).maxBrowsers * (mkPoolConfig mb mp).maxPagesPerBrowser := by
  have hB : 1 ≤ (mkPoolConfig mb mp).maxBrowsers := by
    show 1 ≤ (if mb = 0 then 3 else mb)
    split <;> omega
  have hP : 1 ≤ (mkPoolConfig mb mp).maxPagesPerBrowser := by
    show 1 ≤ (if mp = 0 then 5 else mp)
    split <;> omega
  obtain ⟨hcore, hcaps⟩ := poolInv_runFrom (mkPoolConfig mb mp) hB hP acts
    initialPoolState poolCore_initial (poolCaps_initial _)
  exact busy_le_cap _ _ hcore hcaps

/-! ## No-resurrection of discarded handles (C9) -/

theorem deadPage_initialize (p : Nat) (st : PoolState) (h : DeadPage p st) :
    DeadPage p (initializePool st) := by
  obtain ⟨hf1, hf2, hf3, hf4⟩ := initializePool_fields st
  refine ⟨?_, ?_, ?_, ?_⟩
  · rw [hf4]; exact h.1
  · rw [hf1]; exact h.2.1
  · rw [hf2]; exact h.2.2.1
  · rw [hf3]; exact h.2.2.2

theorem deadPage_acquire (cfg : PoolConfig) (st : PoolState) (p : Nat)
    (h : DeadPage p st) : DeadPage p (acquirePage cfg st).2 := by
  obtain ⟨d1, d2, d3, d4⟩ := deadPage_initialize p st h
  cases hav : (initializePool st).availablePages with
  | cons q rest =>
    rw [acquirePage_eq_pop cfg st q rest hav]
    refine ⟨d1, ?_, ?_, d4⟩
    · intro hm
      exact d2 (by rw [hav]; exact List.mem_cons_of_mem q hm)
    · intro hm
      unfold addBusy at hm
      split at hm
      · exact d3 hm
      · rcases List.mem_cons.mp hm with he | hm2
        · apply d2
          rw [hav, he]
          exact List.mem_cons_self q rest
        · exact d3 hm2
  | nil =>
    cases hop : openPageOnFirst cfg.maxPagesPerBrowser (initializePool st).nextId
        (initializePool st).browsers with
    | some bs' =>
      rw [acquirePage_eq_open cfg st bs' hav hop]
      obtain ⟨l1, l2, he1, he2, _⟩ := openPageOnFirst_split _ _ _ bs' hop
      have hpid : p ≠ (initializePool st).nextId := by omega
      refine ⟨?_, d2, ?_, Nat.lt_succ_of_lt d4⟩
      · intro hm
        rw [he2] at hm
        rcases List.mem_append.mp hm with hm2 | hm2
        · exact d1 (by rw [he1]; exact List.mem_append_left _ hm2)
        · rcases List.mem_cons.mp hm2 with he | hm3
          · exact hpid he
          · exact d1 (by rw [he1]; exact List.mem_append_right _ hm3)
      · intro hm
        unfold addBusy at hm
        split at hm
        · exact d3 hm
        · rcases List.mem_cons.mp hm with he | hm2
          · exact hpid he
          · exact d3 hm2
    | none =>
      by_cases hlen : (initializePool st).browsers.length < cfg.maxBrowsers
      · rw [acquirePage_eq_newBrowser cfg st hav hop hlen]
        have hpid : p ≠ (initializePool st).nextId := by omega
        refine ⟨?_, d2, ?_, Nat.lt_succ_of_lt d4⟩
        · intro hm
          rw [allPoolPages_append] at hm
          rcases List.mem_append.mp hm with hm2 | hm2
          · exact d1 hm2
          · simp [allPoolPages] at hm2
            exact hpid hm2
        · intro hm
          unfold addBusy at hm
          split at hm
          · exact d3 hm
          · rcases List.mem_cons.mp hm with he | hm2
            · exact hpid he
            · exact d3 hm2
      · rw [acquirePage_eq_timeout cfg st hav hop hlen]
        exact ⟨d1, d2, d3, d4⟩

theorem deadPage_release (st : PoolState) (p q : Nat) (b : Bool)
    (h : DeadPage p st) : DeadPage p (releasePage st q b) := by
  obtain ⟨d1, d2, d3, d4⟩ := h
  by_cases hq : q ∈ st.busyPages
  · have hpq : p ≠ q := fun he => d3 (he ▸ hq)
    cases b with
    | false =>
      have heq : releasePage st q false = { st with
          busyPages := st.busyPages.erase q
          browsers := st.browsers.map
            (fun br => { br with poolPages := br.poolPages.erase q }) } := by
        simp [releasePage, hq]
      rw [heq]
      refine ⟨?_, d2, ?_, d4⟩
      · intro hm
        exact d1 ((allPoolPages_eraseMap_sublist q st.browsers).subset hm)
      · intro hm
        exact d3 ((List.erase_sublist q st.busyPages).subset hm)
    | true =>
      have heq : releasePage st q true = { st with
          busyPages := st.busyPages.erase q
          availablePages := q :: st.availablePages } := by
        simp [releasePage, hq]
      rw [heq]
      refine ⟨d1, ?_, ?_, d4⟩
      · intro hm
        rcases List.mem_cons.mp hm with he | hm2
        · exact hpq he
        · exact d2 hm2
      · intro hm
        exact d3 ((List.erase_sublist q st.busyPages).subset hm)
  · have heq : releasePage st q b = st := by simp [releasePage, hq]
    rw [heq]
    exact ⟨d1, d2, d3, d4⟩

theorem deadPage_shutdown (st : PoolState) (p : Nat) (h : DeadPage p st) :
    DeadPage p (shutdownPool st) := by
  refine ⟨?_, ?_, ?_, h.2.2.2⟩ <;> simp [shutdownPool, allPoolPages]

theorem deadPage_step (cfg : PoolConfig) (st : PoolState) (a : PoolAction) (p : Nat)
    (h : DeadPage p st) : DeadPage p (stepPool cfg st a) := by
  cases a with
  | acquire => exact deadPage_acquire cfg st p h
  | releaseOk q => exact deadPage_release st p q true h
  | releaseFail q => exact deadPage_release st p q false h
  | shutdown => exact deadPage_shutdown st p h

theorem deadPage_runFrom (cfg : PoolConfig) (acts : List PoolAction) :
    ∀ st p, DeadPage p st → DeadPage p (runPoolFrom cfg st acts) := by
  induction acts with
  | nil => exact fun st p h => h
  | cons a acts ih => exact fun st p h => ih _ p (deadPage_step cfg st a p h)

theorem deadPage_of_discard (st : PoolState) (p : Nat)
    (hcore : PoolCore st) (hp : p ∈ st.busyPages) :
    DeadPage p (releasePage st p false) := by
  have heq : releasePage st p false = { st with
      busyPages := st.busyPages.erase p
      browsers := st.browsers.map
        (fun br => { br with poolPages := br.poolPages.erase p }) } := by
    simp [releasePage, hp]
  rw [heq]
  have hbusnd : st.busyPages.Nodup := (List.nodup_append.mp hcore.nodupHandles).2.1
  refine ⟨?_, ?_, ?_, ?_⟩
  · exact not_mem_allPoolPages_eraseMap p st.browsers hcore.nodupOpen
  · exact fun hm => (List.disjoint_of_nodup_append hcore.nodupHandles) hm hp
  · intro hm
    exact ((List.Nodup.mem_erase_iff hbusnd).mp hm).1 rfl
  · exact hcore.freshOpen p (hcore.handlesOpen p (List.mem_append_right _ hp))

theorem acquire_ne_of_dead (cfg : PoolConfig) (st : PoolState) (p : Nat)
    (h : DeadPage p st) : (acquirePage cfg st).1 ≠ some p := by
  obtain ⟨d1, d2, d3, d4⟩ := deadPage_initialize p st h
  cases hav : (initializePool st).availablePages with
  | cons q rest =>
    rw [acquirePage_eq_pop cfg st q rest hav]
    intro hcon
    have hqp : q = p := by simpa using hcon
    apply d2
    rw [hav, ← hqp]
    exact List.mem_cons_self q rest
  | nil =>
    cases hop : openPageOnFirst cfg.maxPagesPerBrowser (initializePool st).nextId
        (initializePool st).browsers with
    | some bs' =>
      rw [acquirePage_eq_open cfg st bs' hav hop]
      intro hcon
      have hqp : (initializePool st).nextId = p := by simpa using hcon
      omega
    | none =>
      by_cases hlen : (initializePool st).browsers.length < cfg.maxBrowsers
      · rw [acquirePage_eq_newBrowser cfg st hav hop hlen]
        intro hcon
        have hqp : (initializePool st).nextId = p := by simpa using hcon
        omega
      · rw [acquirePage_eq_timeout cfg st hav hop hlen]
        simp

/-- C9: a page handle that is busy and whose release fails its reset is
discarded for good — after the failed-reset release, no later acquire call,
whatever pool operations happen in between, ever returns that handle
again. -/
theorem releaseFail_no_resurrection (cfg : PoolConfig) (acts : List PoolAction)
    (p : Nat) (acts' : List PoolAction)
    (hp : p ∈ (runPool cfg acts).busyPages) :
    (acquirePage cfg (runPoolFrom cfg
        (releasePage (runPool cfg acts) p false) acts')).1 ≠ some p := by
  have hcore : PoolCore (runPool cfg acts) :=
    poolCore_runFrom cfg acts initialPoolState poolCore_initial
  have hdead := deadPage_of_discard (runPool cfg acts) p hcore hp
  have hdead2 := deadPage_runFrom cfg acts' _ p hdead
  exact acquire_ne_of_dead cfg _ p hdead2

/-- Witness for C9: the handle acquired first from a fresh 3-by-5 pool, once
released with a failing reset, is not returned by the next acquire. -/
theorem releaseFail_no_resurrection_witness :
    0 ∈ (runPool ⟨3, 5⟩ [.acquire]).busyPages ∧
    (acquirePage ⟨3, 5⟩ (runPoolFrom ⟨3, 5⟩
        (releasePage (runPool ⟨3, 5⟩ [.acquire]) 0 false) [.acquire])).1 ≠ some 0 :=
  ⟨by decide, releaseFail_no_resurrection ⟨3, 5⟩ [.acquire] 0 [.acquire] (by decide)⟩

end SiteAssetDL
